import Mathlib

/-!
Verification of the `realip` Caddy middleware (`module.go`) against its
natural-language specification.  The Go source is shallowly embedded:

* `parseIP`, `parseCIDR`, `splitHostPort`, `joinHostPort`, `trimSpace`,
  `splitComma` model the Go standard-library helpers (`net.ParseIP`,
  `net.ParseCIDR`, `net.SplitHostPort`, `net.JoinHostPort`,
  `strings.TrimSpace`, `strings.Split(s, ",")`) that `module.go` calls;
* `validSource`, `addIpRanges`, `unmarshalCaddyfile`, `serveHTTP` are
  translated line by line from `module.go`;
* an HTTP request is represented by its `RemoteAddr` string plus the value
  the forwarded header resolves to (`req.Header.Get` yields `""` both for
  an absent header and for an empty one);
* the result of `ServeHTTP` is an `Outcome`: either `rejected msg` (the Go
  function returns an error before invoking the downstream handler) or
  `next addr` (the downstream handler runs and observes `req.RemoteAddr = addr`).

Machine integers do not overflow in any of the modelled code paths
(bytes stay below 256 by construction), so `Nat`/`Int` are used directly.
-/

namespace Realip

/-! ### Character and string helpers (Go `strings` / `bytealg`) -/

/-- Value of a hexadecimal digit character, `none` for other characters. -/
def hexVal (c : Char) : Option Nat :=
  if '0' ≤ c ∧ c ≤ '9' then some (c.toNat - 48)
  else if 'a' ≤ c ∧ c ≤ 'f' then some (c.toNat - 87)
  else if 'A' ≤ c ∧ c ≤ 'F' then some (c.toNat - 55)
  else none

/-- Go `internal/itoa` helper `dtoi`: parse a leading run of decimal digits.
Returns the value and the number of characters consumed; fails when there is
no digit or the value reaches Go's `big` cutoff `0xFFFFFF`. -/
def dtoi (s : List Char) : Option (Nat × Nat) :=
  let ds := s.takeWhile Char.isDigit
  if ds = [] then none
  else
    let n := ds.foldl (fun acc c => acc * 10 + (c.toNat - 48)) 0
    if 0xFFFFFF ≤ n then none else some (n, ds.length)

/-- Go helper `xtoi`: parse a leading run of hexadecimal digits.
Returns the value and the number of characters consumed; fails when there is
no hex digit or the value reaches Go's `big` cutoff `0xFFFFFF`. -/
def xtoi (s : List Char) : Option (Nat × Nat) :=
  let ds := s.takeWhile (fun c => (hexVal c).isSome)
  if ds = [] then none
  else
    let n := ds.foldl (fun acc c => acc * 16 + ((hexVal c).getD 0)) 0
    if 0xFFFFFF ≤ n then none else some (n, ds.length)

/-- Index of the first occurrence of `c`, as Go `byteIndex`. -/
def idxOf? (c : Char) : List Char → Option Nat
  | [] => none
  | x :: xs => if x = c then some 0 else (idxOf? c xs).map (· + 1)

/-- Index of the last occurrence of `c`, as Go `last`. -/
def lastIdxOf? (c : Char) (s : List Char) : Option Nat :=
  match idxOf? c s.reverse with
  | none => none
  | some i => some (s.length - 1 - i)

/-- Whitespace predicate of Go `unicode.IsSpace` (the code points it accepts). -/
def isSpaceChar (c : Char) : Bool :=
  c = ' ' ∨ c = '\t' ∨ c = '\n' ∨ c = '\x0b' ∨ c = '\x0c' ∨ c = '\r' ∨
  c = '\x85' ∨ c = '\xa0' ∨ c = ' ' ∨ (' ' ≤ c ∧ c ≤ ' ') ∨
  c = ' ' ∨ c = ' ' ∨ c = ' ' ∨ c = ' ' ∨ c = '　'

/-- Go `strings.TrimSpace`: drop leading and trailing whitespace. -/
def trimSpace (s : List Char) : List Char :=
  ((s.dropWhile isSpaceChar).reverse.dropWhile isSpaceChar).reverse

/-- Go `strings.Split(s, ",")`: split at every comma; the result is never
empty (splitting the empty string yields one empty field). -/
def splitComma : List Char → List (List Char)
  | [] => [[]]
  | c :: cs =>
    if c = ',' then [] :: splitComma cs
    else
      match splitComma cs with
      | [] => [[c]]
      | g :: gs => (c :: g) :: gs

/-- Split a character list at the first occurrence of `c`, dropping it. -/
def splitAtFirst (c : Char) : List Char → Option (List Char × List Char)
  | [] => none
  | x :: xs =>
    if x = c then some ([], xs)
    else (splitAtFirst c xs).map (fun p => (x :: p.1, p.2))

/-! ### IP addresses (Go `net.ParseIP` and friends)

An IP address is a list of byte values, of length 4 or 16, exactly as Go's
`net.IP` byte slice.  `net.ParseIP` always yields the 16-byte form, mapping
IPv4 into the `::ffff:0:0/96` range. -/

/-- Leading twelve bytes of an IPv4-in-IPv6 mapped address (Go `v4InV6Prefix`). -/
def v4Heads : List Nat := [0, 0, 0, 0, 0, 0, 0, 0, 0, 0, 0xff, 0xff]

/-- Parse one dotted-decimal field of an IPv4 address: at most the value 255,
no leading zero (Go since 1.17 rejects `010.0.0.1`).  Returns the byte and
the remaining characters. -/
def parseV4Field (s : List Char) : Option (Nat × List Char) :=
  match dtoi s with
  | none => none
  | some (n, c) =>
    if 0xFF < n then none
    else if 1 < c ∧ s.headD ' ' = '0' then none
    else some (n, s.drop c)

/-- Consume a literal dot. -/
def expectDot : List Char → Option (List Char)
  | '.' :: rest => some rest
  | _ => none

/-- Go `parseIPv4`, yielding the four raw bytes: exactly four dot-separated
decimal fields and nothing left over. -/
def parseIPv4Core (s : List Char) : Option (List Nat) := do
  let (a, s) ← parseV4Field s
  let s ← expectDot s
  let (b, s) ← parseV4Field s
  let s ← expectDot s
  let (c, s) ← parseV4Field s
  let s ← expectDot s
  let (d, s) ← parseV4Field s
  if s = [] then some [a, b, c, d] else none

/-- Post-processing of Go `parseIPv6`: the input must be consumed; a short
address needs an ellipsis, at whose position zero bytes are inserted; a full
address must not have one. -/
def v6Finish (bytes : List Nat) (ellipsis : Option Nat) (i : Nat) (s : List Char) :
    Option (List Nat) :=
  if s ≠ [] then none
  else if i < 16 then
    match ellipsis with
    | none => none
    | some e => some (bytes.take e ++ List.replicate (16 - i) 0 ++ bytes.drop e)
  else
    match ellipsis with
    | some _ => none
    | none => some bytes

/-- Main loop of Go `parseIPv6`: read 16-bit hex groups separated by colons,
tracking an optional `::` ellipsis position and allowing a trailing embedded
IPv4 address.  `fuel` only bounds the loop (each pass fills two bytes, so 9
passes are never reached). -/
def parseIPv6Loop : Nat → List Nat → Option Nat → List Char → Nat → Option (List Nat)
  | 0, _, _, _, _ => none
  | fuel + 1, bytes, ellipsis, s, i =>
    if i < 16 then
      match xtoi s with
      | none => none
      | some (n, c) =>
        if 0xFFFF < n then none
        else if c < s.length ∧ s.getD c ' ' = '.' then
          if (ellipsis = none ∧ i ≠ 12) ∨ 16 < i + 4 then none
          else
            match parseIPv4Core s with
            | none => none
            | some v4 => v6Finish (bytes ++ v4) ellipsis (i + 4) []
        else
          let bytes2 := bytes ++ [n / 256, n % 256]
          let s2 := s.drop c
          if s2 = [] then v6Finish bytes2 ellipsis (i + 2) []
          else if s2.headD ' ' ≠ ':' ∨ s2.length = 1 then none
          else
            let s3 := s2.drop 1
            if s3.headD ' ' = ':' then
              if ellipsis.isSome then none
              else
                let s4 := s3.drop 1
                if s4 = [] then v6Finish bytes2 (some (i + 2)) (i + 2) []
                else parseIPv6Loop fuel bytes2 (some (i + 2)) s4 (i + 2)
            else parseIPv6Loop fuel bytes2 ellipsis s3 (i + 2)
    else v6Finish bytes ellipsis i s

/-- Go `parseIPv6` (zones are rejected, as `net.ParseIP` does since Go 1.17). -/
def parseIPv6 (s : List Char) : Option (List Nat) :=
  match s with
  | ':' :: ':' :: rest =>
    if rest = [] then some (List.replicate 16 0)
    else parseIPv6Loop 9 [] (some 0) rest 0
  | _ => parseIPv6Loop 9 [] none s 0

/-- Go `net.ParseIP`: the first dot or colon decides between the IPv4 and the
IPv6 grammar; anything else is not an IP address and yields `none` (Go `nil`).
IPv4 results are returned in 16-byte mapped form as Go does. -/
def parseIP (str : String) : Option (List Nat) :=
  match str.data.find? (fun c => c == '.' || c == ':') with
  | some c =>
    if c = '.' then (parseIPv4Core str.data).map (fun bs => v4Heads ++ bs)
    else parseIPv6 str.data
  | none => none

/-- Go `IP.To4`: a 4-byte address is returned as is; a 16-byte mapped IPv4
address is shortened to its last four bytes; anything else gives `none`. -/
def to4 (ip : List Nat) : Option (List Nat) :=
  if ip.length = 4 then some ip
  else if ip.length = 16 ∧ ip.take 12 = v4Heads then some (ip.drop 12)
  else none

/-- Go `net.IPNet`: a network number together with a mask, both byte lists. -/
structure IPNet where
  ip : List Nat
  mask : List Nat
deriving DecidableEq, Repr

/-- Go `networkNumberAndMask`: normalize an `IPNet` to matching 4- or 16-byte
forms, `none` when the stored lengths are unusable. -/
def networkNumberAndMask (n : IPNet) : Option (List Nat × List Nat) :=
  let ipOpt := to4 n.ip
  let ip := match ipOpt with
    | some x => x
    | none => n.ip
  if ipOpt = none ∧ ip.length ≠ 16 then none
  else if n.mask.length = 4 then
    if ip.length ≠ 4 then none else some (ip, n.mask)
  else if n.mask.length = 16 then
    if ip.length = 4 then some (ip, n.mask.drop 12) else some (ip, n.mask)
  else none

/-- Go `(*IPNet).Contains`: after normalizing both sides, the address is in
the network iff it agrees with the network number on all masked bits. -/
def ipNetContains (n : IPNet) (ip0 : List Nat) : Bool :=
  let nm := match networkNumberAndMask n with
    | none => (([] : List Nat), ([] : List Nat))
    | some p => p
  let ip := match to4 ip0 with
    | some x => x
    | none => ip0
  ip.length = nm.1.length ∧
    (List.range ip.length).all
      (fun i => (nm.1.getD i 0) &&& (nm.2.getD i 0) = (ip.getD i 0) &&& (nm.2.getD i 0))

/-- Go `net.CIDRMask`: a mask of `ones` leading one-bits over `bits` total
bits, only for the IPv4 and IPv6 widths. -/
def cidrMask (ones bits : Nat) : Option (List Nat) :=
  if bits ≠ 32 ∧ bits ≠ 128 then none
  else if bits < ones then none
  else
    some ((List.range (bits / 8)).map (fun i =>
      let r := ones - i * 8
      if 8 ≤ r then 0xFF else 255 - (255 >>> r)))

/-- Go `IP.Mask`: apply a mask byte-wise, shortening mapped IPv4 forms first. -/
def ipMask (ip mask : List Nat) : Option (List Nat) :=
  let mask2 := if mask.length = 16 ∧ ip.length = 4 ∧ (mask.take 12).all (· == 0xFF)
    then mask.drop 12 else mask
  let ip2 := if mask2.length = 4 ∧ ip.length = 16 ∧ ip.take 12 = v4Heads
    then ip.drop 12 else ip
  if ip2.length ≠ mask2.length then none
  else some ((List.zip ip2 mask2).map (fun p => p.1 &&& p.2))

/-- Go `net.ParseCIDR`: split at the first slash, parse the address part
(IPv4 first, then IPv6) and the decimal prefix length, and return the masked
network.  `none` models the `*ParseError` return. -/
def parseCIDR (s : String) : Option IPNet :=
  match splitAtFirst '/' s.data with
  | none => none
  | some (addr, maskStr) =>
    let parsed := match parseIPv4Core addr with
      | some bs => (32, some (v4Heads ++ bs))
      | none => (128, parseIPv6 addr)
    match parsed.2, dtoi maskStr with
    | some ip, some (n, c) =>
      if c ≠ maskStr.length ∨ parsed.1 < n then none
      else
        match cidrMask n parsed.1 with
        | none => none
        | some m =>
          match ipMask ip m with
          | none => none
          | some masked => some ⟨masked, m⟩
    | _, _ => none

/-! ### The middleware configuration (`type module` in `module.go`) -/

/-- Configuration of the middleware, `type module struct` in `module.go`:
trusted subnets, forwarded-header name, hop limit (`-1` disables it) and
strict mode. -/
structure module where
  From : List IPNet
  Header : String
  MaxHops : Int
  Strict : Bool
deriving DecidableEq, Repr

/-- Zero value of `module`, as produced by `var m module` in
`parseCaddyfileHandler` (Go zero values: empty slice, empty string, `0`,
`false`). -/
def zeroModule : module := ⟨[], "", 0, false⟩

/-- Static preset table `presets` of `module.go` (a fixed Go map from name to
CIDR-literal list; lookup order is irrelevant, membership is by exact name). -/
def presetsLookup (name : String) : Option (List String) :=
  if name = "cloudflare" then some [
    "103.21.244.0/22", "103.22.200.0/22", "103.31.4.0/22", "104.16.0.0/12",
    "108.162.192.0/18", "131.0.72.0/22", "141.101.64.0/18", "162.158.0.0/15",
    "172.64.0.0/13", "173.245.48.0/20", "188.114.96.0/20", "190.93.240.0/20",
    "197.234.240.0/22", "198.41.128.0/17", "2400:cb00::/32", "2405:8100::/32",
    "2405:b500::/32", "2606:4700::/32", "2803:f800::/32", "2c0f:f248::/32",
    "2a06:98c0::/29"]
  else if name = "gcp" then some [
    "130.211.0.0/22", "35.191.0.0/16"]
  else if name = "rackspace" then some [
    "10.189.254.0/24", "10.189.252.0/24", "10.183.248.0/24", "10.187.186.0/24",
    "10.183.250.0/24", "10.187.191.0/24", "10.189.255.0/24", "10.187.186.0/24",
    "10.189.254.0/24", "10.183.253.0/24", "10.183.250.0/24", "10.189.246.0/24",
    "10.187.187.0/24", "10.187.186.0/24", "10.183.252.0/24", "10.189.245.0/24",
    "10.183.251.0/24", "10.187.191.0/24", "10.190.254.0/24", "10.189.246.0/24",
    "10.190.255.0/24", "10.187.190.0/24", "10.189.247.0/24", "10.189.254.0/24",
    "10.189.254.0/24"]
  else none

/-- Function `addIpRanges` of `module.go`: walk the token list in order; a
token naming a preset is expanded by a recursive call (so presets may
reference presets) and its subnets land in `From` before the following tokens
are handled; any other token must parse as a CIDR literal and is appended;
a malformed literal aborts with a configuration error (`d.Err` is modelled as
the error message itself).  `fuel` bounds the total number of processed
tokens so the recursion is structural; the Go original needs no such bound
because the preset table is finite and acyclic, and any `fuel` larger than
the total expanded size behaves identically to the original. -/
def addIpRanges (fuel : Nat) (acc : List IPNet) (ranges : List String) :
    Except String (List IPNet) :=
  match fuel with
  | 0 => .error "fuel exhausted"
  | fuel + 1 =>
    match ranges with
    | [] => .ok acc
    | v :: rest =>
      match presetsLookup v with
      | some preset =>
        match addIpRanges fuel acc preset with
        | .error e => .error e
        | .ok acc2 => addIpRanges fuel acc2 rest
      | none =>
        match parseCIDR v with
        | none => .error ("invalid CIDR address: " ++ v)
        | some cidr => addIpRanges fuel (acc ++ [cidr]) rest

/-- Modelled from the spec (§4.2): `expand(names)` — for each token, a known
preset name is recursively expanded and its results spliced in, preserving
order; any other token is treated as a CIDR literal (malformed ones are a
hard configuration error).  Stated over parsed subnets so it can be compared
with `addIpRanges`; `fuel` is the same step bound as there. -/
def expandSpec (fuel : Nat) (ranges : List String) : Except String (List IPNet) :=
  match fuel with
  | 0 => .error "fuel exhausted"
  | fuel + 1 =>
    match ranges with
    | [] => .ok []
    | v :: rest =>
      match presetsLookup v with
      | some preset =>
        match expandSpec fuel preset with
        | .error e => .error e
        | .ok here =>
          match expandSpec fuel rest with
          | .error e => .error e
          | .ok there => .ok (here ++ there)
      | none =>
        match parseCIDR v with
        | none => .error ("invalid CIDR address: " ++ v)
        | some cidr =>
          match expandSpec fuel rest with
          | .error e => .error e
          | .ok there => .ok (cidr :: there)

/-- Go `strconv.ParseBool`: the exact accepted literals. -/
def parseGoBool (s : String) : Option Bool :=
  if s = "1" ∨ s = "t" ∨ s = "T" ∨ s = "true" ∨ s = "TRUE" ∨ s = "True" then some true
  else if s = "0" ∨ s = "f" ∨ s = "F" ∨ s = "false" ∨ s = "FALSE" ∨ s = "False" then some false
  else none

/-- Decimal integer with optional sign, modelling the `strconv.ParseInt` call
of `parseIntArg` (base 10; Go `int` range checks never bind in the modelled
configurations). -/
def parseGoInt (s : String) : Option Int :=
  let core : List Char → Option Nat := fun cs =>
    if cs = [] ∨ ¬ cs.all Char.isDigit then none
    else some (cs.foldl (fun acc c => acc * 10 + (c.toNat - 48)) 0)
  match s.data with
  | '-' :: rest => (core rest).map (fun n => -(n : Int))
  | '+' :: rest => (core rest).map (fun n => (n : Int))
  | cs => (core cs).map (fun n => (n : Int))

/-- Fuel handed to `addIpRanges` by the configuration parser; large enough
for every configuration whose expansion has at most a few dozen entries. -/
def presetFuel : Nat := 1000

/-- Function `UnmarshalCaddyfile` of `module.go`, with the Caddyfile
dispenser abstracted to the list of directives it yields: each directive is
its name together with its argument tokens.  The switch is translated
verbatim: `header` takes one string, `from` feeds the remaining arguments to
`addIpRanges`, `strict` and `maxhops` parse one boolean or integer, anything
else is `Unknown realip arg`.  The commented-out block that once installed
the defaults `Header = "X-Forwarded-For"`, `MaxHops = 5` is dead code, so no
field is assigned outside the switch. -/
def unmarshalCaddyfile (m : module) : List (String × List String) → Except String module
  | [] => .ok m
  | (key, args) :: rest =>
    if key = "header" then
      match args with
      | [a] => unmarshalCaddyfile { m with Header := a } rest
      | _ => .error "ArgErr"
    else if key = "from" then
      match addIpRanges presetFuel m.From args with
      | .error e => .error e
      | .ok f => unmarshalCaddyfile { m with From := f } rest
    else if key = "strict" then
      match args with
      | [a] =>
        match parseGoBool a with
        | some b => unmarshalCaddyfile { m with Strict := b } rest
        | none => .error "Error parsing strict"
      | _ => .error "ArgErr"
    else if key = "maxhops" then
      match args with
      | [a] =>
        match parseGoInt a with
        | some n => unmarshalCaddyfile { m with MaxHops := n } rest
        | none => .error "Error parsing maxhops"
      | _ => .error "ArgErr"
    else .error "Unknown realip arg"

/-! ### The request handler (`ServeHTTP` in `module.go`) -/

/-- Go `net.SplitHostPort`: split at the last colon, with bracketed IPv6
hosts; `none` models every error return (missing port, too many colons,
stray brackets).  `ServeHTTP` only tests the error for being non-nil, so the
messages are not modelled. -/
def splitHostPort (hostport : String) : Option (String × String) :=
  let s := hostport.data
  match lastIdxOf? ':' s with
  | none => none
  | some i =>
    if s.headD ' ' = '[' then
      match idxOf? ']' s with
      | none => none
      | some e =>
        if e + 1 = s.length then none
        else if e + 1 = i then
          if ((s.drop 1).contains '[') then none
          else if ((s.drop (e + 1)).contains ']') then none
          else some (((s.drop 1).take (e - 1)).asString, (s.drop (i + 1)).asString)
        else none
    else
      let host := s.take i
      if host.contains ':' then none
      else if s.contains '[' then none
      else if s.contains ']' then none
      else some (host.asString, (s.drop (i + 1)).asString)

/-- Go `net.JoinHostPort`: bracket hosts that contain a colon. -/
def joinHostPort (host port : String) : String :=
  if host.data.contains ':' then "[" ++ host ++ "]:" ++ port
  else host ++ ":" ++ port

/-- Lines 194–197 of `module.go`: `strings.Split(hVal, ",")` followed by
`strings.TrimSpace` on every part. -/
def chainParts (hVal : String) : List String :=
  (splitComma hVal.data).map (fun cs => (trimSpace cs).asString)

/-- Method `validSource` of `module.go`: parse the address; an unparseable
string is simply not valid; otherwise scan `From` for a containing subnet. -/
def validSource (m : module) (addr : String) : Bool :=
  match parseIP addr with
  | none => false
  | some ip => m.From.any (fun sn => ipNetContains sn ip)

/-- Observable result of `ServeHTTP`: either the Go method returns an error
before reaching the downstream handler (`rejected` with the error message),
or the downstream handler runs and sees the given `req.RemoteAddr`
(`next`). -/
inductive Outcome where
  | rejected (msg : String)
  | next (remoteAddr : String)
deriving DecidableEq, Repr

/-- Loop of lines 209–217 of `module.go`, at index `i` counting down to 0.
Each iteration first writes `parts[i]:port` into `req.RemoteAddr`; at a
non-leftmost untrusted entry the request is rejected (strict) or handed to
the downstream handler with that partially rewritten address (permissive);
after index 0 the downstream handler runs with `parts[0]:port`.  The
assignment of line 208 writes the same value as the first iteration, so it
has no observable effect of its own. -/
def walk (m : module) (parts : List String) (port : String) : Nat → Outcome
  | 0 => .next (joinHostPort (parts.getD 0 "") port)
  | i + 1 =>
    if validSource m (parts.getD (i + 1) "") then walk m parts port i
    else if m.Strict then
      .rejected ("Unrecognized proxy ip address: " ++ parts.getD (i + 1) "")
    else .next (joinHostPort (parts.getD (i + 1) "") port)

/-- Lines 194–217 of `module.go` (the non-empty-header branch): hop-count
gate, rightmost-entry parse gate, then the walk. -/
def serveChain (m : module) (hVal port remoteAddr : String) : Outcome :=
  if m.MaxHops ≠ -1 ∧ ((chainParts hVal).length : Int) > m.MaxHops then
    .rejected "Too many forward addresses"
  else
    match parseIP ((chainParts hVal).getD ((chainParts hVal).length - 1) "") with
    | none =>
      if m.Strict then
        .rejected ("Unrecognized proxy ip address: " ++
          (chainParts hVal).getD ((chainParts hVal).length - 1) "")
      else .next remoteAddr
    | some _ => walk m (chainParts hVal) port ((chainParts hVal).length - 1)

/-- Method `ServeHTTP` of `module.go`.  `remoteAddr` is `req.RemoteAddr` on
entry; `hVal` is `req.Header.Get(m.Header)`, which is `""` both when the
header is absent and when it is empty.  The second `validSource` test
(lines 185–190) is translated although it is unreachable: line 179 already
branched on the same condition. -/
def serveHTTP (m : module) (remoteAddr hVal : String) : Outcome :=
  match splitHostPort remoteAddr with
  | none =>
    if m.Strict then .rejected ("Error reading remote addr: " ++ remoteAddr)
    else .next remoteAddr
  | some (host, port) =>
    if ¬ validSource m host then
      if m.Strict then .rejected ("Error reading remote addr: " ++ remoteAddr)
      else .next remoteAddr
    else if ¬ validSource m host then
      if m.Strict then .rejected ("Unrecognized proxy ip address: " ++ host)
      else .next remoteAddr
    else if hVal ≠ "" then serveChain m hVal port remoteAddr
    else .next remoteAddr

/-! ### Concrete fixtures (the spec's test scenarios, §8) -/

/-- Subnet `203.0.113.0/24`, exactly as `net.ParseCIDR` yields it. -/
def net203 : IPNet := ⟨[203, 0, 113, 0], [255, 255, 255, 0]⟩

/-- Subnet `198.51.100.0/24`, exactly as `net.ParseCIDR` yields it. -/
def net198 : IPNet := ⟨[198, 51, 100, 0], [255, 255, 255, 0]⟩

/-- Permissive configuration trusting both scenario subnets (Scenario A). -/
def mBoth : module := ⟨[net203, net198], "X-Forwarded-For", -1, false⟩

/-- Permissive configuration trusting only the peer's subnet (Scenario B). -/
def mOnly203 : module := ⟨[net203], "X-Forwarded-For", -1, false⟩

/-- Strict variant of `mOnly203` (Scenario C). -/
def mOnly203Strict : module := ⟨[net203], "X-Forwarded-For", -1, true⟩

/-- Permissive configuration with `MaxHops = 2` (Scenario D). -/
def mHops2 : module := ⟨[net203], "X-Forwarded-For", 2, false⟩

/-- Caddyfile directives that never mention `maxhops`. -/
def dsC10 : List (String × List String) := [("from", ["203.0.113.0/24"]), ("strict", ["true"])]

/-- Module produced by unmarshalling `dsC10` from the zero value. -/
def mC10 : module := ⟨[net203], "", 0, true⟩

/-! ### Helper lemmas -/

/-- Go `strings.Split` never yields an empty slice. -/
theorem splitComma_ne_nil : ∀ l, splitComma l ≠ [] := by
  intro l
  induction l with
  | nil => simp [splitComma]
  | cons c cs ih =>
    simp only [splitComma]
    split
    · simp
    · split <;> simp

/-- The parsed chain always has at least one entry. -/
theorem chainParts_pos (hVal : String) : 0 < (chainParts hVal).length := by
  unfold chainParts
  rw [List.length_map]
  exact List.length_pos.mpr (splitComma_ne_nil _)

/-- Reduction of `serveHTTP` on a parseable trusted peer with a non-empty
header: the chain branch runs. -/
theorem serveHTTP_trusted (m : module) (ra hVal host port : String)
    (hsplit : splitHostPort ra = some (host, port))
    (hvalid : validSource m host = true) (hne : hVal ≠ "") :
    serveHTTP m ra hVal = serveChain m hVal port ra := by
  unfold serveHTTP
  rw [hsplit]
  simp [hvalid, hne]

/-- Reduction of `serveHTTP` on a parseable trusted peer with an empty
header value: pass through unchanged. -/
theorem serveHTTP_empty (m : module) (ra host port : String)
    (hsplit : splitHostPort ra = some (host, port))
    (hvalid : validSource m host = true) :
    serveHTTP m ra "" = .next ra := by
  unfold serveHTTP
  rw [hsplit]
  simp [hvalid]

/-- Reduction of `serveHTTP` on a parseable untrusted peer. -/
theorem serveHTTP_peer_untrusted (m : module) (ra host port hVal : String)
    (hsplit : splitHostPort ra = some (host, port))
    (hvalid : validSource m host = false) :
    serveHTTP m ra hVal =
      if m.Strict then .rejected ("Error reading remote addr: " ++ ra) else .next ra := by
  unfold serveHTTP
  rw [hsplit]
  simp [hvalid]

/-- Reduction of `serveHTTP` on an unsplittable peer address. -/
theorem serveHTTP_split_fail (m : module) (ra hVal : String)
    (hsplit : splitHostPort ra = none) :
    serveHTTP m ra hVal =
      if m.Strict then .rejected ("Error reading remote addr: " ++ ra) else .next ra := by
  unfold serveHTTP
  rw [hsplit]

/-- When every non-leftmost entry up to `i` is trusted, the walk reaches the
leftmost entry and resolves to it. -/
theorem walk_all_trusted (m : module) (parts : List String) (port : String) :
    ∀ i, (∀ j, 0 < j → j ≤ i → validSource m (parts.getD j "") = true) →
      walk m parts port i = .next (joinHostPort (parts.getD 0 "") port) := by
  intro i
  induction i with
  | zero => intro _; rfl
  | succ i ih =>
    intro h
    have hv := h (i + 1) (Nat.succ_pos i) (Nat.le_refl _)
    simp only [walk, hv, if_true]
    exact ih (fun j hj hji => h j hj (Nat.le_succ_of_le hji))

/-- Every address the walk hands to the downstream handler is a chain entry
joined with the original port. -/
theorem walk_next_addr (m : module) (parts : List String) (port : String) :
    ∀ i r, walk m parts port i = .next r →
      ∃ j, j ≤ i ∧ r = joinHostPort (parts.getD j "") port := by
  intro i
  induction i with
  | zero =>
    intro r h
    simp only [walk, Outcome.next.injEq] at h
    exact ⟨0, Nat.le_refl 0, h.symm⟩
  | succ i ih =>
    intro r h
    simp only [walk] at h
    by_cases hv : validSource m (parts.getD (i + 1) "")
    · rw [if_pos hv] at h
      obtain ⟨j, hj, hr⟩ := ih r h
      exact ⟨j, Nat.le_succ_of_le hj, hr⟩
    · rw [if_neg hv] at h
      by_cases hs : m.Strict
      · rw [if_pos hs] at h
        exact absurd h (by simp)
      · rw [if_neg hs] at h
        simp only [Outcome.next.injEq] at h
        exact ⟨i + 1, Nat.le_refl _, h.symm⟩

/-- Every rejection the walk can produce carries the untrusted-hop message. -/
theorem walk_rejected_msg (m : module) (parts : List String) (port : String) :
    ∀ i msg, walk m parts port i = .rejected msg →
      ∃ a, msg = "Unrecognized proxy ip address: " ++ a := by
  intro i
  induction i with
  | zero =>
    intro msg h
    exact absurd h (by simp [walk])
  | succ i ih =>
    intro msg h
    simp only [walk] at h
    by_cases hv : validSource m (parts.getD (i + 1) "")
    · rw [if_pos hv] at h
      exact ih msg h
    · rw [if_neg hv] at h
      by_cases hs : m.Strict
      · rw [if_pos hs] at h
        simp only [Outcome.rejected.injEq] at h
        exact ⟨parts.getD (i + 1) "", h.symm⟩
      · rw [if_neg hs] at h
        exact absurd h (by simp)

/-- Every pass-through produced inside the chain branch carries either the
untouched original remote address or a chain entry joined with the original
port. -/
theorem serveChain_next (m : module) (hVal port ra r : String)
    (hres : serveChain m hVal port ra = .next r) :
    r = ra ∨ ∃ j, j < (chainParts hVal).length ∧
      r = joinHostPort ((chainParts hVal).getD j "") port := by
  unfold serveChain at hres
  split at hres
  · exact absurd hres (by simp)
  · split at hres
    · split at hres
      · exact absurd hres (by simp)
      · simp only [Outcome.next.injEq] at hres
        exact Or.inl hres.symm
    · obtain ⟨j, hj, hr⟩ := walk_next_addr m (chainParts hVal) port _ r hres
      exact Or.inr ⟨j, lt_of_le_of_lt hj (Nat.sub_lt (chainParts_pos hVal) Nat.one_pos), hr⟩

/-- The untrusted-hop message never collides with the hop-limit message. -/
theorem unrecognized_ne_hoplimit (a : String) :
    "Unrecognized proxy ip address: " ++ a ≠ "Too many forward addresses" := by
  intro h
  have h2 := congrArg String.length h
  rw [String.length_append] at h2
  have h31 : ("Unrecognized proxy ip address: " : String).length = 31 := rfl
  have h26 : ("Too many forward addresses" : String).length = 26 := rfl
  rw [h31, h26] at h2
  omega

/-- Unmarshalling directives that never mention `maxhops` leaves `MaxHops`
unchanged. -/
theorem unmarshal_maxHops : ∀ ds (m m2 : module),
    (∀ d ∈ ds, d.1 ≠ "maxhops") → unmarshalCaddyfile m ds = .ok m2 →
    m2.MaxHops = m.MaxHops := by
  intro ds
  induction ds with
  | nil =>
    intro m m2 _ h
    simp only [unmarshalCaddyfile, Except.ok.injEq] at h
    rw [← h]
  | cons d rest ih =>
    intro m m2 hno h
    have hkey : d.1 ≠ "maxhops" := hno d (List.mem_cons_self _ _)
    have hrest : ∀ x ∈ rest, x.1 ≠ "maxhops" := fun x hx => hno x (List.mem_cons_of_mem _ hx)
    obtain ⟨key, args⟩ := d
    simp only [unmarshalCaddyfile] at h
    by_cases h1 : key = "header"
    · rw [if_pos h1] at h
      match args, h with
      | [a], h => exact ih { m with Header := a } m2 hrest h
      | [], h => exact absurd h (by simp)
      | a :: b :: t, h => exact absurd h (by simp)
    · rw [if_neg h1] at h
      by_cases h2 : key = "from"
      · rw [if_pos h2] at h
        cases hadd : addIpRanges presetFuel m.From args with
        | error e => rw [hadd] at h; exact absurd h (by simp)
        | ok f => rw [hadd] at h; exact ih { m with From := f } m2 hrest h
      · rw [if_neg h2] at h
        by_cases h3 : key = "strict"
        · rw [if_pos h3] at h
          match args, h with
          | [a], h =>
            have h5 : (match parseGoBool a with
                | some b => unmarshalCaddyfile { m with Strict := b } rest
                | none => (Except.error "Error parsing strict" : Except String module)) =
                Except.ok m2 := h
            cases hb : parseGoBool a with
            | some b => rw [hb] at h5; exact ih { m with Strict := b } m2 hrest h5
            | none => rw [hb] at h5; exact absurd h5 (by simp)
          | [], h => exact absurd h (by simp)
          | a :: b :: t, h => exact absurd h (by simp)
        · rw [if_neg h3] at h
          by_cases h4 : key = "maxhops"
          · exact absurd h4 hkey
          · rw [if_neg h4] at h
            exact absurd h (by simp)

/-! ### Claim theorems -/

/-- C1: the claim states that when the peer is trusted, the chain is
non-empty with a parseable rightmost entry, some entry at index `i > 0` is
untrusted and `Strict = false`, the downstream handler observes the original
peer `host:port` with no partial rewrite.  The code violates this: at the
failing input below (Scenario B of the spec) the permissive untrusted-hop
branch hands the request to the downstream handler only after
`req.RemoteAddr` has already been rewritten to the untrusted entry's value
joined with the original port, so the handler observes
`198.51.100.7:12345`, not the original `203.0.113.5:12345`. -/
theorem serveHTTP_partial_rewrite :
    serveHTTP mOnly203 "203.0.113.5:12345" "10.0.0.1, 198.51.100.7" =
      .next "198.51.100.7:12345" := rfl

/-- C2: for a request that reaches the hop-count gate (parseable trusted
peer, non-empty header), the outcome is the hop-limit rejection exactly when
`MaxHops ≠ -1` and the chain length exceeds `MaxHops`.  The characterisation
never mentions `Strict` (the module, hence its mode, is universally
quantified), and with `MaxHops = -1` the left conjunct of the right-hand
side is false, so no chain length triggers the rejection. -/
theorem serveHTTP_hop_gate (m : module) (ra hVal host port : String)
    (hsplit : splitHostPort ra = some (host, port))
    (hvalid : validSource m host = true) (hne : hVal ≠ "") :
    serveHTTP m ra hVal = .rejected "Too many forward addresses" ↔
      (m.MaxHops ≠ -1 ∧ ((chainParts hVal).length : Int) > m.MaxHops) := by
  rw [serveHTTP_trusted m ra hVal host port hsplit hvalid hne]
  unfold serveChain
  by_cases hc : m.MaxHops ≠ -1 ∧ ((chainParts hVal).length : Int) > m.MaxHops
  · rw [if_pos hc]
    simp [hc]
  · rw [if_neg hc]
    refine iff_of_false ?_ hc
    cases hp : parseIP ((chainParts hVal).getD ((chainParts hVal).length - 1) "") with
    | none =>
      simp only [hp]
      by_cases hs : m.Strict
      · rw [if_pos hs]
        intro h
        simp only [Outcome.rejected.injEq] at h
        exact unrecognized_ne_hoplimit _ h
      · rw [if_neg hs]
        simp
    | some ip =>
      simp only [hp]
      intro h
      obtain ⟨a, ha⟩ := walk_rejected_msg m (chainParts hVal) port _ _ h
      exact unrecognized_ne_hoplimit a ha.symm

/-- Witness for C2 at Scenario D: `MaxHops = 2`, three chain entries. -/
theorem serveHTTP_hop_gate_witness :
    serveHTTP mHops2 "203.0.113.5:80" "a, b, c" = .rejected "Too many forward addresses" ↔
      (mHops2.MaxHops ≠ -1 ∧ ((chainParts "a, b, c").length : Int) > mHops2.MaxHops) :=
  serveHTTP_hop_gate mHops2 "203.0.113.5:80" "a, b, c" "203.0.113.5" "80" rfl rfl (by decide)

/-- C3: with a trusted parseable peer, a chain within the hop limit whose
rightmost entry parses and all of whose non-leftmost entries are trusted,
the outcome is resolution to the leftmost entry (joined with the original
port).  Nothing is assumed about the leftmost entry itself, and the module —
hence `Strict` — is arbitrary. -/
theorem serveHTTP_resolves_leftmost (m : module) (ra hVal host port : String)
    (hsplit : splitHostPort ra = some (host, port))
    (hvalid : validSource m host = true) (hne : hVal ≠ "")
    (hhop : ¬ (m.MaxHops ≠ -1 ∧ ((chainParts hVal).length : Int) > m.MaxHops))
    (hlast : ∃ ip, parseIP ((chainParts hVal).getD ((chainParts hVal).length - 1) "") = some ip)
    (htrust : ∀ i, 0 < i → i < (chainParts hVal).length →
      validSource m ((chainParts hVal).getD i "") = true) :
    serveHTTP m ra hVal = .next (joinHostPort ((chainParts hVal).getD 0 "") port) := by
  rw [serveHTTP_trusted m ra hVal host port hsplit hvalid hne]
  unfold serveChain
  rw [if_neg hhop]
  obtain ⟨ip, hip⟩ := hlast
  simp only [hip]
  exact walk_all_trusted m (chainParts hVal) port _ (fun j hj hji =>
    htrust j hj (lt_of_le_of_lt hji (Nat.sub_lt (chainParts_pos hVal) Nat.one_pos)))

/-- Witness for C3 at Scenario A: leftmost entry `10.0.0.1` is not in the
trust set, yet it is resolved. -/
theorem serveHTTP_resolves_leftmost_witness :
    serveHTTP mBoth "203.0.113.5:12345" "10.0.0.1, 198.51.100.7" =
      .next (joinHostPort ((chainParts "10.0.0.1, 198.51.100.7").getD 0 "") "12345") :=
  serveHTTP_resolves_leftmost mBoth "203.0.113.5:12345" "10.0.0.1, 198.51.100.7"
    "203.0.113.5" "12345" rfl rfl (by decide) (by decide) ⟨_, rfl⟩
    (fun i hi hlt => by
      have hl : (chainParts "10.0.0.1, 198.51.100.7").length = 2 := rfl
      rw [hl] at hlt
      have : i = 1 := by omega
      subst this
      rfl)

/-- C4: a trusted parseable peer with an absent or empty forwarded header
(`req.Header.Get` yields `""` in both cases) always passes through with the
original peer address, whatever `Strict`, `MaxHops` and the trust set are;
the result does not depend on any chain processing. -/
theorem serveHTTP_empty_header (m : module) (ra host port : String)
    (hsplit : splitHostPort ra = some (host, port))
    (hvalid : validSource m host = true) :
    serveHTTP m ra "" = .next ra := by
  unfold serveHTTP
  rw [hsplit]
  simp [hvalid]

/-- Witness for C4. -/
theorem serveHTTP_empty_header_witness :
    serveHTTP mOnly203Strict "203.0.113.5:80" "" = .next "203.0.113.5:80" :=
  serveHTTP_empty_header mOnly203Strict "203.0.113.5:80" "203.0.113.5" "80" rfl rfl

/-- C5: when the peer address fails to split into host and port or the host
is not trusted, strict mode rejects the request and permissive mode passes
it through unchanged; the forwarded header value is universally quantified
on both sides, so it is never consulted. -/
theorem serveHTTP_untrusted_peer (m : module) (ra : String)
    (hfail : splitHostPort ra = none ∨
      ∃ host port, splitHostPort ra = some (host, port) ∧ validSource m host = false) :
    (m.Strict = true →
      ∀ hVal, serveHTTP m ra hVal = .rejected ("Error reading remote addr: " ++ ra)) ∧
    (m.Strict = false → ∀ hVal, serveHTTP m ra hVal = .next ra) := by
  constructor
  · intro hs hVal
    unfold serveHTTP
    rcases hfail with h | ⟨host, port, hsp, hv⟩
    · rw [h]; simp [hs]
    · rw [hsp]; simp [hv, hs]
  · intro hs hVal
    unfold serveHTTP
    rcases hfail with h | ⟨host, port, hsp, hv⟩
    · rw [h]; simp [hs]
    · rw [hsp]; simp [hv, hs]

/-- Witness for C5 at Scenario E: untrusted peer, permissive, header present. -/
theorem serveHTTP_untrusted_peer_witness :
    serveHTTP mOnly203 "9.9.9.9:80" "10.0.0.1, 198.51.100.7" = .next "9.9.9.9:80" :=
  (serveHTTP_untrusted_peer mOnly203 "9.9.9.9:80"
    (Or.inr ⟨"9.9.9.9", "80", rfl, rfl⟩)).2 rfl "10.0.0.1, 198.51.100.7"

/-- C6: with a trusted peer and a chain within the hop limit whose rightmost
entry does not parse as an IP, strict mode rejects and permissive mode
passes through with the request unchanged — the same reject-versus-
pass-through shape as an untrusted-peer failure. -/
theorem serveHTTP_bad_rightmost (m : module) (ra hVal host port : String)
    (hsplit : splitHostPort ra = some (host, port))
    (hvalid : validSource m host = true) (hne : hVal ≠ "")
    (hhop : ¬ (m.MaxHops ≠ -1 ∧ ((chainParts hVal).length : Int) > m.MaxHops))
    (hlast : parseIP ((chainParts hVal).getD ((chainParts hVal).length - 1) "") = none) :
    (m.Strict = true → serveHTTP m ra hVal = .rejected
      ("Unrecognized proxy ip address: " ++ (chainParts hVal).getD ((chainParts hVal).length - 1) "")) ∧
    (m.Strict = false → serveHTTP m ra hVal = .next ra) := by
  constructor
  · intro hs
    rw [serveHTTP_trusted m ra hVal host port hsplit hvalid hne]
    unfold serveChain
    rw [if_neg hhop]
    simp only [hlast]
    rw [if_pos hs]
  · intro hs
    rw [serveHTTP_trusted m ra hVal host port hsplit hvalid hne]
    unfold serveChain
    rw [if_neg hhop]
    simp only [hlast]
    rw [if_neg (by rw [hs]; exact Bool.false_ne_true)]

/-- Witness for C6: strict configuration, rightmost entry `not-an-ip`. -/
theorem serveHTTP_bad_rightmost_witness :
    serveHTTP mOnly203Strict "203.0.113.5:80" "10.0.0.1, not-an-ip" = .rejected
      ("Unrecognized proxy ip address: " ++
        (chainParts "10.0.0.1, not-an-ip").getD ((chainParts "10.0.0.1, not-an-ip").length - 1) "") :=
  (serveHTTP_bad_rightmost mOnly203Strict "203.0.113.5:80" "10.0.0.1, not-an-ip"
    "203.0.113.5" "80" rfl rfl (by decide) (by decide) rfl).1 rfl

/-- C7: the trust-membership test succeeds exactly when the string parses as
an IP address (IPv4 or IPv6, `parseIP` handles both grammars) and some
configured subnet contains it; for a string that does not parse it is simply
`false` — `validSource` is total, there is no error path. -/
theorem validSource_iff (m : module) (addr : String) :
    validSource m addr = true ↔
      ∃ ip, parseIP addr = some ip ∧ ∃ sn ∈ m.From, ipNetContains sn ip = true := by
  unfold validSource
  cases hp : parseIP addr with
  | none => simp
  | some ip => simp [List.any_eq_true]

/-- C8: any remote address handed to the downstream handler is either the
untouched original or some chain entry joined (by `net.JoinHostPort`) with
the port component of the original peer address — in particular, on the
resolved path the rewritten address always carries the original connection's
port, never an invented one and never a port taken from a chain entry. -/
theorem serveHTTP_port_preserved (m : module) (ra hVal host port r : String)
    (hsplit : splitHostPort ra = some (host, port))
    (hres : serveHTTP m ra hVal = .next r) :
    r = ra ∨ ∃ j, j < (chainParts hVal).length ∧
      r = joinHostPort ((chainParts hVal).getD j "") port := by
  cases hvb : validSource m host with
  | true =>
    by_cases hne : hVal = ""
    · subst hne
      rw [serveHTTP_empty m ra host port hsplit hvb] at hres
      simp only [Outcome.next.injEq] at hres
      exact Or.inl hres.symm
    · rw [serveHTTP_trusted m ra hVal host port hsplit hvb hne] at hres
      exact serveChain_next m hVal port ra r hres
  | false =>
    rw [serveHTTP_peer_untrusted m ra host port hVal hsplit hvb] at hres
    by_cases hs : m.Strict = true
    · rw [if_pos hs] at hres
      exact absurd hres (by simp)
    · rw [if_neg hs] at hres
      simp only [Outcome.next.injEq] at hres
      exact Or.inl hres.symm

/-- Witness for C8 at Scenario A: the resolved address reuses port `12345`. -/
theorem serveHTTP_port_preserved_witness :
    "10.0.0.1:12345" = "203.0.113.5:12345" ∨
      ∃ j, j < (chainParts "10.0.0.1, 198.51.100.7").length ∧
        "10.0.0.1:12345" =
          joinHostPort ((chainParts "10.0.0.1, 198.51.100.7").getD j "") "12345" :=
  serveHTTP_port_preserved mBoth "203.0.113.5:12345" "10.0.0.1, 198.51.100.7"
    "203.0.113.5" "12345" "10.0.0.1:12345" rfl rfl

/-- Unfolding equation of `addIpRanges` on a non-empty token list. -/
theorem addIpRanges_cons (fuel : Nat) (acc : List IPNet) (v : String) (rest : List String) :
    addIpRanges (fuel + 1) acc (v :: rest) =
      match presetsLookup v with
      | some preset =>
        match addIpRanges fuel acc preset with
        | .error e => .error e
        | .ok acc2 => addIpRanges fuel acc2 rest
      | none =>
        match parseCIDR v with
        | none => .error ("invalid CIDR address: " ++ v)
        | some cidr => addIpRanges fuel (acc ++ [cidr]) rest := rfl

/-- Unfolding equation of `expandSpec` on a non-empty token list. -/
theorem expandSpec_cons (fuel : Nat) (v : String) (rest : List String) :
    expandSpec (fuel + 1) (v :: rest) =
      match presetsLookup v with
      | some preset =>
        match expandSpec fuel preset with
        | .error e => .error e
        | .ok here =>
          match expandSpec fuel rest with
          | .error e => .error e
          | .ok there => .ok (here ++ there)
      | none =>
        match parseCIDR v with
        | none => .error ("invalid CIDR address: " ++ v)
        | some cidr =>
          match expandSpec fuel rest with
          | .error e => .error e
          | .ok there => .ok (cidr :: there) := rfl

/-- Helper for C9: `addIpRanges` appends exactly the spec's order-preserving
recursive expansion of the token list to the accumulated subnet list. -/
theorem addIpRanges_eq_expandSpec : ∀ fuel acc ranges,
    addIpRanges fuel acc ranges = Except.map (fun l => acc ++ l) (expandSpec fuel ranges) := by
  intro fuel
  induction fuel with
  | zero => intro acc ranges; rfl
  | succ fuel ih =>
    intro acc ranges
    cases ranges with
    | nil =>
      show (Except.ok acc : Except String (List IPNet)) =
        Except.map (fun l => acc ++ l) (Except.ok [])
      simp [Except.map]
    | cons v rest =>
      cases hp : presetsLookup v with
      | some preset =>
        cases he : expandSpec fuel preset with
        | error e =>
          simp only [addIpRanges_cons, expandSpec_cons, hp, ih, he, Except.map]
        | ok here =>
          cases hr : expandSpec fuel rest with
          | error e =>
            simp only [addIpRanges_cons, expandSpec_cons, hp, ih, he, hr, Except.map]
          | ok there =>
            simp only [addIpRanges_cons, expandSpec_cons, hp, ih, he, hr, Except.map,
              Except.ok.injEq, List.append_assoc]
      | none =>
        cases hc : parseCIDR v with
        | none =>
          simp only [addIpRanges_cons, expandSpec_cons, hp, hc, Except.map]
        | some cidr =>
          cases hr : expandSpec fuel rest with
          | error e =>
            simp only [addIpRanges_cons, expandSpec_cons, hp, hc, ih, hr, Except.map]
          | ok there =>
            simp only [addIpRanges_cons, expandSpec_cons, hp, hc, ih, hr, Except.map,
              Except.ok.injEq, List.append_assoc, List.singleton_append]

/-- C9: configuration-time range expansion refines the spec's `expand`:
`addIpRanges` appends to the accumulated `From` list exactly the recursive,
order-preserving expansion `expandSpec` of its tokens (preset names are
spliced in place via recursive calls, other tokens are parsed as CIDR
literals and appended), and a token that is neither a preset name nor a
well-formed CIDR makes the whole expansion fail with a configuration error
at load time. -/
theorem addIpRanges_correct :
    (∀ fuel acc ranges,
      addIpRanges fuel acc ranges = Except.map (fun l => acc ++ l) (expandSpec fuel ranges)) ∧
    (∀ fuel acc (v : String) rest, presetsLookup v = none → parseCIDR v = none →
      addIpRanges (fuel + 1) acc (v :: rest) = .error ("invalid CIDR address: " ++ v)) := by
  refine ⟨addIpRanges_eq_expandSpec, ?_⟩
  intro fuel acc v rest hp hc
  simp only [addIpRanges, hp, hc]

/-- Witness for C9: a token that is neither a preset nor a CIDR literal. -/
theorem addIpRanges_correct_witness :
    addIpRanges 1 [] ["banana"] = .error ("invalid CIDR address: " ++ "banana") :=
  addIpRanges_correct.2 0 [] "banana" [] rfl rfl

/-- C10: starting from the Go zero value (as `parseCaddyfileHandler` does),
unmarshalling any directive list that never names `maxhops` leaves
`MaxHops = 0` — the commented-out default of 5 is never applied — and under
such a configuration every request with a trusted parseable peer and a
non-empty forwarded header is rejected with the hop-limit error, whatever
`Strict` is (the rejection happens before the strictness branch). -/
theorem zero_maxhops_rejects (ds : List (String × List String)) (m2 : module)
    (hno : ∀ d ∈ ds, d.1 ≠ "maxhops")
    (hok : unmarshalCaddyfile zeroModule ds = .ok m2) :
    m2.MaxHops = 0 ∧
    ∀ ra host port hVal, splitHostPort ra = some (host, port) →
      validSource m2 host = true → hVal ≠ "" →
      serveHTTP m2 ra hVal = .rejected "Too many forward addresses" := by
  have hmax : m2.MaxHops = 0 := unmarshal_maxHops ds zeroModule m2 hno hok
  refine ⟨hmax, ?_⟩
  intro ra host port hVal hsplit hvalid hne
  rw [serveHTTP_trusted m2 ra hVal host port hsplit hvalid hne]
  unfold serveChain
  have hcond : m2.MaxHops ≠ -1 ∧ ((chainParts hVal).length : Int) > m2.MaxHops := by
    rw [hmax]
    refine ⟨by decide, ?_⟩
    exact_mod_cast chainParts_pos hVal
  rw [if_pos hcond]

/-- Witness for C10: a configuration with `from` and `strict` but no
`maxhops` rejects a single-entry chain. -/
theorem zero_maxhops_rejects_witness :
    serveHTTP mC10 "203.0.113.5:80" "10.0.0.1" = .rejected "Too many forward addresses" :=
  (zero_maxhops_rejects dsC10 mC10 (by decide) rfl).2
    "203.0.113.5:80" "203.0.113.5" "80" "10.0.0.1" rfl rfl (by decide)

end Realip
